import Mathlib

/-!
Shallow embedding of the `hermes-types` price-feed data model
(`src/lib.rs`): identifier codec, fixed-point price serialization,
domain updates, the client view builder `RpcPriceFeed::from_price_feed_update`,
the wire envelope `PriceUpdate`, and the envelope-to-domain converter
`TryFrom<PriceUpdate> for PriceFeedsWithUpdateData`.

Rust strings are modelled as `List Char`, byte sequences as `List Nat`
(each element < 256 where it matters), `u64` as `Nat`, `i64`/`i32` as `Int`.
-/

namespace HermesTypes

/-- Value of one hex digit, as in the `hex` crate: `0-9`, `a-f`, `A-F`
are accepted (case-insensitive); anything else is rejected. -/
def hexVal (c : Char) : Option Nat :=
  if 48 ≤ c.toNat ∧ c.toNat ≤ 57 then some (c.toNat - 48)
  else if 97 ≤ c.toNat ∧ c.toNat ≤ 102 then some (c.toNat - 87)
  else if 65 ≤ c.toNat ∧ c.toNat ≤ 70 then some (c.toNat - 55)
  else none

/-- Whether a character is a hex digit. -/
def isHexChar (c : Char) : Bool := (hexVal c).isSome

/-- Lower-case hex digit for a value `d < 16`, as emitted by `hex::encode`. -/
def toHexChar (d : Nat) : Char :=
  if d < 10 then Char.ofNat (48 + d) else Char.ofNat (97 + (d - 10))

/-- `hex::encode`: each byte becomes two lower-case hex characters. -/
def hexEncode : List Nat → List Char
  | [] => []
  | b :: rest => toHexChar (b / 16) :: toHexChar (b % 16) :: hexEncode rest

/-- `hex::decode`: fails (`none`) on odd length or any non-hex character. -/
def hexDecode : List Char → Option (List Nat)
  | [] => some []
  | [_] => none
  | c1 :: c2 :: rest =>
    match hexVal c1, hexVal c2, hexDecode rest with
    | some h, some l, some bs => some ((16 * h + l) :: bs)
    | _, _, _ => none

/-- Lower-case a hex character (`A-F` to `a-f`, all else unchanged). -/
def lowerHex (c : Char) : Char :=
  if 65 ≤ c.toNat ∧ c.toNat ≤ 70 then Char.ofNat (c.toNat + 32) else c

/-- Strip one optional leading `0x` or `0X`. -/
def strip0x (s : List Char) : List Char :=
  match s with
  | c1 :: c2 :: rest => if c1 = '0' ∧ (c2 = 'x' ∨ c2 = 'X') then rest else s
  | _ => s

/-- Character of the standard base64 alphabet for a 6-bit value. -/
def base64Char (n : Nat) : Char :=
  if n < 26 then Char.ofNat (65 + n)
  else if n < 52 then Char.ofNat (97 + (n - 26))
  else if n < 62 then Char.ofNat (48 + (n - 52))
  else if n = 62 then '+'
  else '/'

/-- Standard base64 encoding with `=` padding, as produced by the
`base64` crate's `STANDARD` engine. -/
def base64Encode : List Nat → List Char
  | [] => []
  | [b1] => [base64Char (b1 / 4), base64Char (b1 % 4 * 16), '=', '=']
  | [b1, b2] =>
    [base64Char (b1 / 4), base64Char (b1 % 4 * 16 + b2 / 16),
     base64Char (b2 % 16 * 4), '=']
  | b1 :: b2 :: b3 :: rest =>
    base64Char (b1 / 4) :: base64Char (b1 % 4 * 16 + b2 / 16) ::
    base64Char (b2 % 16 * 4 + b3 / 64) :: base64Char (b3 % 64) ::
    base64Encode rest

/-- `EncodingType` from `lib.rs`: the closed set of binary encodings. -/
inductive EncodingType where
  | Hex : EncodingType
  | Base64 : EncodingType
deriving DecidableEq, Repr

/-- `EncodingType::encode_str`: dispatch to the matching codec. -/
def EncodingType.encode_str : EncodingType → List Nat → List Char
  | EncodingType.Base64, data => base64Encode data
  | EncodingType.Hex, data => hexEncode data

/-- `pyth_sdk::Price`: fixed-point price with confidence and publish time. -/
structure Price where
  price : Int
  conf : Nat
  expo : Int
  publish_time : Int
deriving DecidableEq, Repr

/-- `pyth_sdk::PriceIdentifier`: a 32-byte identifier. -/
structure PriceIdentifier where
  bytes : List Nat
deriving DecidableEq, Repr

def PriceIdentifier.new (b : List Nat) : PriceIdentifier := ⟨b⟩

def PriceIdentifier.to_bytes (p : PriceIdentifier) : List Nat := p.bytes

/-- `pyth_sdk::PriceFeed`: identifier plus current and EMA price. -/
structure PriceFeed where
  id : PriceIdentifier
  price : Price
  ema_price : Price
deriving DecidableEq, Repr

def PriceFeed.new (id : PriceIdentifier) (price ema_price : Price) : PriceFeed :=
  ⟨id, price, ema_price⟩

def PriceFeed.get_price_unchecked (f : PriceFeed) : Price := f.price

def PriceFeed.get_ema_price_unchecked (f : PriceFeed) : Price := f.ema_price

/-- `PriceFeedUpdate` from `lib.rs`. -/
structure PriceFeedUpdate where
  price_feed : PriceFeed
  slot : Option Nat
  received_at : Option Int
  update_data : Option (List Nat)
  prev_publish_time : Option Int
deriving DecidableEq, Repr

/-- `PriceFeedsWithUpdateData` from `lib.rs`. -/
structure PriceFeedsWithUpdateData where
  price_feeds : List PriceFeedUpdate
  update_data : List (List Nat)
deriving DecidableEq, Repr

/-- `RpcPrice` from `lib.rs`. -/
structure RpcPrice where
  price : Int
  conf : Nat
  expo : Int
  publish_time : Int
deriving DecidableEq, Repr

/-- `RpcPriceIdentifier` from `lib.rs`: a 32-byte identifier. -/
structure RpcPriceIdentifier where
  bytes : List Nat
deriving DecidableEq, Repr

def RpcPriceIdentifier.new (b : List Nat) : RpcPriceIdentifier := ⟨b⟩

/-- `impl From<RpcPriceIdentifier> for PriceIdentifier`. -/
def RpcPriceIdentifier.toPriceIdentifier (id : RpcPriceIdentifier) : PriceIdentifier :=
  PriceIdentifier.new id.bytes

/-- `impl From<PriceIdentifier> for RpcPriceIdentifier`. -/
def RpcPriceIdentifier.ofPriceIdentifier (id : PriceIdentifier) : RpcPriceIdentifier :=
  ⟨id.to_bytes⟩

/-- `RpcPriceFeedMetadata` from `lib.rs`. -/
structure RpcPriceFeedMetadata where
  slot : Option Nat
  emitter_chain : Nat
  price_service_receive_time : Option Int
  prev_publish_time : Option Int
deriving DecidableEq, Repr

/-- `RpcPriceFeedMetadataV2` from `lib.rs`. -/
structure RpcPriceFeedMetadataV2 where
  slot : Option Nat
  proof_available_time : Option Int
  prev_publish_time : Option Int
deriving DecidableEq, Repr

/-- `RpcPriceFeed` from `lib.rs`; `vaa` is a base64 string. -/
structure RpcPriceFeed where
  id : RpcPriceIdentifier
  price : RpcPrice
  ema_price : RpcPrice
  metadata : Option RpcPriceFeedMetadata
  vaa : Option (List Char)
deriving DecidableEq, Repr

/-- The `u16` chain id of `wormhole_sdk::Chain::Pythnet`. -/
def pythnetChainId : Nat := 26

/-- `RpcPriceFeed::from_price_feed_update` from `lib.rs`. -/
def RpcPriceFeed.from_price_feed_update (price_feed_update : PriceFeedUpdate)
    (verbose : Bool) (binary : Bool) : RpcPriceFeed :=
  let price_feed := price_feed_update.price_feed
  { id := RpcPriceIdentifier.new price_feed.id.to_bytes
    price :=
      { price := price_feed.get_price_unchecked.price
        conf := price_feed.get_price_unchecked.conf
        expo := price_feed.get_price_unchecked.expo
        publish_time := price_feed.get_price_unchecked.publish_time }
    ema_price :=
      { price := price_feed.get_ema_price_unchecked.price
        conf := price_feed.get_ema_price_unchecked.conf
        expo := price_feed.get_ema_price_unchecked.expo
        publish_time := price_feed.get_ema_price_unchecked.publish_time }
    metadata :=
      if verbose then
        some
          { emitter_chain := pythnetChainId
            price_service_receive_time := price_feed_update.received_at
            slot := price_feed_update.slot
            prev_publish_time := price_feed_update.prev_publish_time }
      else none
    vaa :=
      match binary with
      | false => none
      | true => price_feed_update.update_data.map base64Encode }

/-- `BinaryPriceUpdate` from `lib.rs`. -/
structure BinaryPriceUpdate where
  encoding : EncodingType
  data : List (List Char)
deriving DecidableEq, Repr

/-- `ParsedPriceUpdate` from `lib.rs`. -/
structure ParsedPriceUpdate where
  id : RpcPriceIdentifier
  price : RpcPrice
  ema_price : RpcPrice
  metadata : RpcPriceFeedMetadataV2
deriving DecidableEq, Repr

/-- `impl From<PriceFeedUpdate> for ParsedPriceUpdate`. -/
def ParsedPriceUpdate.ofPriceFeedUpdate (price_feed_update : PriceFeedUpdate) :
    ParsedPriceUpdate :=
  let price_feed := price_feed_update.price_feed
  { id := RpcPriceIdentifier.ofPriceIdentifier price_feed.id
    price :=
      { price := price_feed.get_price_unchecked.price
        conf := price_feed.get_price_unchecked.conf
        expo := price_feed.get_price_unchecked.expo
        publish_time := price_feed.get_price_unchecked.publish_time }
    ema_price :=
      { price := price_feed.get_ema_price_unchecked.price
        conf := price_feed.get_ema_price_unchecked.conf
        expo := price_feed.get_ema_price_unchecked.expo
        publish_time := price_feed.get_ema_price_unchecked.publish_time }
    metadata :=
      { proof_available_time := price_feed_update.received_at
        slot := price_feed_update.slot
        prev_publish_time := price_feed_update.prev_publish_time } }

/-- `PriceUpdate` from `lib.rs`: the wire envelope. -/
structure PriceUpdate where
  binary : BinaryPriceUpdate
  parsed : Option (List ParsedPriceUpdate)
deriving DecidableEq, Repr

/-- `impl TryFrom<PriceUpdate> for PriceFeedsWithUpdateData` from `lib.rs`.
Note the binary `data` entries are passed to `hex::decode` with
`unwrap_or_default` (an empty vector on failure), regardless of
`price_update.binary.encoding`. -/
def PriceFeedsWithUpdateData.tryFrom (price_update : PriceUpdate) :
    Except String PriceFeedsWithUpdateData :=
  match price_update.parsed with
  | none => Except.error "No parsed price updates available"
  | some parsed_updates =>
    Except.ok
      { price_feeds :=
          parsed_updates.map fun parsed_price_update =>
            { price_feed :=
                PriceFeed.new parsed_price_update.id.toPriceIdentifier
                  { price := parsed_price_update.price.price
                    conf := parsed_price_update.price.conf
                    expo := parsed_price_update.price.expo
                    publish_time := parsed_price_update.price.publish_time }
                  { price := parsed_price_update.ema_price.price
                    conf := parsed_price_update.ema_price.conf
                    expo := parsed_price_update.ema_price.expo
                    publish_time := parsed_price_update.ema_price.publish_time }
              slot := parsed_price_update.metadata.slot
              received_at := parsed_price_update.metadata.proof_available_time
              update_data := none
              prev_publish_time := parsed_price_update.metadata.prev_publish_time }
        update_data :=
          price_update.binary.data.map fun hex_str => (hexDecode hex_str).getD [] }

/-- Decimal digit character for `d < 10`. -/
def decChar (d : Nat) : Char := Char.ofNat (48 + d)

/-- Whether a character is a decimal digit `0-9`. -/
def isDecDigit (c : Char) : Bool := 48 ≤ c.toNat && c.toNat ≤ 57

/-- Decimal rendering of a `u64`, as Rust's `ToString` produces it
(used by `pyth_sdk::utils::as_string` on the `conf` field). -/
def natToDecimal (n : Nat) : List Char :=
  if n = 0 then ['0'] else ((Nat.digits 10 n).map decChar).reverse

/-- Decimal rendering of an `i64`, as Rust's `ToString` produces it
(used by `pyth_sdk::utils::as_string` on the `price` field). -/
def intToDecimal (i : Int) : List Char :=
  if i < 0 then '-' :: natToDecimal i.natAbs else natToDecimal i.toNat

/-- Value of a non-empty all-digit decimal string; `none` otherwise. -/
def decDigitsVal (cs : List Char) : Option Nat :=
  if cs ≠ [] ∧ cs.all isDecDigit then
    some (cs.foldl (fun a c => 10 * a + (c.toNat - 48)) 0)
  else none

/-- Rust `u64::from_str` on the shapes relevant here: decimal digits,
bounds-checked against `2 ^ 64`. -/
def parseU64 (cs : List Char) : Option Nat :=
  (decDigitsVal cs).bind fun n => if n < 2 ^ 64 then some n else none

/-- Rust `i64::from_str` on the shapes relevant here: an optional sign
followed by decimal digits, bounds-checked against the `i64` range. -/
def parseI64 (cs : List Char) : Option Int :=
  match cs with
  | [] => none
  | c :: rest =>
    if c = '-' then
      (decDigitsVal rest).bind fun n =>
        if n ≤ 2 ^ 63 then some (-(n : Int)) else none
    else if c = '+' then
      (decDigitsVal rest).bind fun n =>
        if n < 2 ^ 63 then some ((n : Int)) else none
    else
      (decDigitsVal (c :: rest)).bind fun n =>
        if n < 2 ^ 63 then some ((n : Int)) else none

/-- The textual (serde) form of `RpcPrice`: `price` and `conf` are emitted
as decimal strings via `pyth_sdk::utils::as_string`, while `expo` and
`publish_time` stay native integers. -/
structure SerializedRpcPrice where
  price : List Char
  conf : List Char
  expo : Int
  publish_time : Int
deriving DecidableEq, Repr

/-- Serde serialization of `RpcPrice` per the field attributes in `lib.rs`. -/
def serializeRpcPrice (p : RpcPrice) : SerializedRpcPrice :=
  { price := intToDecimal p.price
    conf := natToDecimal p.conf
    expo := p.expo
    publish_time := p.publish_time }

/-- Serde deserialization of `RpcPrice` per the field attributes in `lib.rs`. -/
def deserializeRpcPrice (s : SerializedRpcPrice) : Option RpcPrice :=
  (parseI64 s.price).bind fun p =>
    (parseU64 s.conf).bind fun c =>
      some { price := p, conf := c, expo := s.expo, publish_time := s.publish_time }

/-- Errors of identifier-text parsing, as named by the spec. -/
inductive ParseError where
  | InvalidLength : ParseError
  | InvalidHex : ParseError
deriving DecidableEq, Repr

/-- Modelled from the spec: the `serde_hex` module referenced by
`PriceIdInput` in `lib.rs` is absent from the sources, so its `parse` is
taken from the spec's words: strip an optional leading `0x`/`0X`; fail
with `InvalidHex` on any non-hex character; fail with `InvalidLength`
unless the remaining text decodes to exactly 32 bytes. -/
def parsePriceId (s : List Char) : Except ParseError (List Nat) :=
  let t := strip0x s
  if t.all isHexChar then
    match hexDecode t with
    | some bs => if bs.length = 32 then Except.ok bs else Except.error ParseError.InvalidLength
    | none => Except.error ParseError.InvalidLength
  else Except.error ParseError.InvalidHex

/-- Modelled from the spec: `to_hex` of the absent `serde_hex` module —
lower-case, unprefixed hex of the 32 identifier bytes. -/
def priceIdToHex (bs : List Nat) : List Char := hexEncode bs

/-- Decoding a lower-case hex digit character recovers the digit. -/
theorem hexVal_toHexChar (d : Nat) (h : d < 16) : hexVal (toHexChar d) = some d := by
  interval_cases d <;> decide

/-- Hex digit values are below 16. -/
theorem hexVal_lt (c : Char) (d : Nat) (h : hexVal c = some d) : d < 16 := by
  unfold hexVal at h
  split_ifs at h <;> (injection h with h; omega)

/-- Re-encoding the value of a hex character yields its lower-case form. -/
theorem toHexChar_hexVal (c : Char) (d : Nat) (h : hexVal c = some d) :
    toHexChar d = lowerHex c := by
  unfold hexVal at h
  split_ifs at h with h1 h2 h3 <;> injection h with h
  · have hd : d < 10 := by omega
    have he : 48 + d = c.toNat := by omega
    rw [toHexChar, if_pos hd, he, Char.ofNat_toNat, lowerHex, if_neg (by omega)]
  · have hd : ¬ d < 10 := by omega
    have he : 97 + (d - 10) = c.toNat := by omega
    rw [toHexChar, if_neg hd, he, Char.ofNat_toNat, lowerHex, if_neg (by omega)]
  · have hd : ¬ d < 10 := by omega
    have he : 97 + (d - 10) = c.toNat + 32 := by omega
    rw [toHexChar, if_neg hd, he, lowerHex, if_pos (by omega)]

/-- `hex::decode` inverts `hex::encode` on byte sequences. -/
theorem hexDecode_hexEncode (bs : List Nat) (h : ∀ b ∈ bs, b < 256) :
    hexDecode (hexEncode bs) = some bs := by
  induction bs with
  | nil => rfl
  | cons b rest ih =>
    have hb : b < 256 := h b (List.mem_cons_self b rest)
    have hrest := ih fun x hx => h x (List.mem_cons_of_mem b hx)
    have h1 : b / 16 < 16 := by omega
    have h2 : b % 16 < 16 := by omega
    have hb' : 16 * (b / 16) + b % 16 = b := by omega
    simp only [hexEncode, hexDecode, hexVal_toHexChar _ h1, hexVal_toHexChar _ h2,
      hrest, hb']

/-- A successful `hex::decode` consumes exactly two characters per byte. -/
theorem hexDecode_length (t : List Char) (bs : List Nat) (h : hexDecode t = some bs) :
    t.length = 2 * bs.length := by
  match t, h with
  | [], h => simp only [hexDecode, Option.some.injEq] at h; simp [← h]
  | [c], h => simp [hexDecode] at h
  | c1 :: c2 :: rest, h =>
    revert h
    unfold hexDecode
    match hv1 : hexVal c1, hv2 : hexVal c2, hd : hexDecode rest with
    | some v1, some v2, some bs' =>
      intro h
      injection h with h
      have := hexDecode_length rest bs' hd
      simp [← h, this]; omega
    | none, _, _ => intro h; simp at h
    | some _, none, _ => intro h; simp at h
    | some _, some _, none => intro h; simp at h

/-- On even-length all-hex text, `hex::decode` succeeds, the result has
half the length, re-encodes to the lower-cased text, and is bytes. -/
theorem hexDecode_total (t : List Char) (hhex : t.all isHexChar = true)
    (heven : t.length % 2 = 0) :
    ∃ bs, hexDecode t = some bs ∧ bs.length = t.length / 2 ∧
      hexEncode bs = t.map lowerHex ∧ ∀ b ∈ bs, b < 256 := by
  match t with
  | [] => exact ⟨[], rfl, rfl, rfl, by simp⟩
  | [c] => simp at heven
  | c1 :: c2 :: rest =>
    simp only [List.all_cons, Bool.and_eq_true] at hhex
    obtain ⟨hc1, hc2, hrest⟩ := hhex
    obtain ⟨d1, hd1⟩ := Option.isSome_iff_exists.mp hc1
    obtain ⟨d2, hd2⟩ := Option.isSome_iff_exists.mp hc2
    have heven' : rest.length % 2 = 0 := by
      simp only [List.length_cons] at heven ⊢; omega
    obtain ⟨bs, hbs, hlen, henc, hlt⟩ := hexDecode_total rest hrest heven'
    have hlt1 := hexVal_lt c1 d1 hd1
    have hlt2 := hexVal_lt c2 d2 hd2
    refine ⟨(16 * d1 + d2) :: bs, ?_, ?_, ?_, ?_⟩
    · simp only [hexDecode, hd1, hd2, hbs]
    · simp only [List.length_cons, hlen]; omega
    · have e1 : (16 * d1 + d2) / 16 = d1 := by omega
      have e2 : (16 * d1 + d2) % 16 = d2 := by omega
      simp only [hexEncode, List.map_cons, henc, e1, e2,
        toHexChar_hexVal c1 d1 hd1, toHexChar_hexVal c2 d2 hd2]
    · intro b hb
      rcases List.mem_cons.mp hb with h | h
      · omega
      · exact hlt b h

/-- Hex digit characters are never `x` or `X`. -/
theorem toHexChar_ne (d : Nat) (h : d < 16) : toHexChar d ≠ 'x' ∧ toHexChar d ≠ 'X' := by
  interval_cases d <;> exact ⟨by decide, by decide⟩

/-- Encoded hex text never starts with a `0x`/`0X` prefix. -/
theorem strip0x_hexEncode (bs : List Nat) : strip0x (hexEncode bs) = hexEncode bs := by
  match bs with
  | [] => rfl
  | b :: rest =>
    have hne := toHexChar_ne (b % 16) (by omega)
    simp only [hexEncode, strip0x]
    rw [if_neg]
    rintro ⟨-, h2 | h2⟩
    · exact hne.1 h2
    · exact hne.2 h2

/-- Encoded hex text consists of hex characters. -/
theorem hexEncode_all_hex (bs : List Nat) (h : ∀ b ∈ bs, b < 256) :
    (hexEncode bs).all isHexChar = true := by
  induction bs with
  | nil => rfl
  | cons b rest ih =>
    have hb := h b (List.mem_cons_self b rest)
    simp only [hexEncode, List.all_cons, Bool.and_eq_true]
    refine ⟨?_, ?_, ih fun x hx => h x (List.mem_cons_of_mem b hx)⟩
    · simp [isHexChar, hexVal_toHexChar _ (show b / 16 < 16 by omega)]
    · simp [isHexChar, hexVal_toHexChar _ (show b % 16 < 16 by omega)]

/-- Encoded hex text has two characters per byte. -/
theorem hexEncode_length (bs : List Nat) : (hexEncode bs).length = 2 * bs.length := by
  induction bs with
  | nil => rfl
  | cons b rest ih => simp only [hexEncode, List.length_cons, ih]; omega

/-- C2: parsing the hex text produced by encoding a 32-byte value yields the
value back; any valid identifier text (64 hex characters after an optional
`0x`/`0X` prefix, any letter case) parses successfully and re-encodes to the
canonical lower-case unprefixed 64-character form; and the upper-case
`0x`-prefixed example spelling parses to the same identifier as the
lower-case unprefixed one. -/
theorem priceId_parse_toHex_roundtrip (bs : List Nat) (s : List Char)
    (hlen : bs.length = 32) (hb : ∀ b ∈ bs, b < 256)
    (hhex : (strip0x s).all isHexChar = true) (hslen : (strip0x s).length = 64) :
    parsePriceId (priceIdToHex bs) = Except.ok bs
    ∧ (∃ cs, parsePriceId s = Except.ok cs
        ∧ priceIdToHex cs = (strip0x s).map lowerHex
        ∧ (priceIdToHex cs).length = 64)
    ∧ parsePriceId
        "0xE62DF6C8B4A85FE1A67DB44DC12DE5DB330F7AC66B72DC658AFEDF0F4A415B43".toList
      = parsePriceId
        "e62df6c8b4a85fe1a67db44dc12de5db330f7ac66b72dc658afedf0f4a415b43".toList := by
  refine ⟨?_, ?_, by rfl⟩
  · simp only [parsePriceId, priceIdToHex, strip0x_hexEncode,
      hexEncode_all_hex bs hb, hexDecode_hexEncode bs hb, hlen, if_true]
  · obtain ⟨cs, hcs, hcslen, henc, -⟩ := hexDecode_total (strip0x s) hhex (by omega)
    have hcs32 : cs.length = 32 := by omega
    refine ⟨cs, ?_, ?_, ?_⟩
    · simp only [parsePriceId, hhex, hcs, hcs32, if_true]
    · rw [priceIdToHex, henc]
    · rw [priceIdToHex, hexEncode_length, hcs32]

/-- Witness for C2 at the all-zero identifier and the example text. -/
theorem priceId_parse_toHex_roundtrip_witness :
    (List.replicate 32 0).length = 32
    ∧ parsePriceId (priceIdToHex (List.replicate 32 0))
        = Except.ok (List.replicate 32 0) :=
  ⟨by decide,
   (priceId_parse_toHex_roundtrip (List.replicate 32 0)
      "e62df6c8b4a85fe1a67db44dc12de5db330f7ac66b72dc658afedf0f4a415b43".toList
      (by decide) (by decide) (by decide) (by decide)).1⟩

/-- C3: identifier parsing fails with `InvalidLength` when the text after the
optional `0x`/`0X` prefix is all hex but does not decode to exactly 32 bytes,
fails with `InvalidHex` when it contains a non-hex character, and succeeds on
64 hex digits of either letter case. -/
theorem parsePriceId_errors (s : List Char) :
    ((strip0x s).all isHexChar = true → (strip0x s).length ≠ 64 →
      parsePriceId s = Except.error ParseError.InvalidLength)
    ∧ ((strip0x s).all isHexChar = false →
      parsePriceId s = Except.error ParseError.InvalidHex)
    ∧ ((strip0x s).all isHexChar = true → (strip0x s).length = 64 →
      ∃ bs, parsePriceId s = Except.ok bs ∧ bs.length = 32) := by
  refine ⟨?_, ?_, ?_⟩
  · intro hhex hlen
    cases hd : hexDecode (strip0x s) with
    | none => simp only [parsePriceId, hhex, hd, if_true]
    | some bs =>
      have := hexDecode_length _ _ hd
      have hne : bs.length ≠ 32 := by omega
      simp only [parsePriceId, hhex, hd, if_true]
      rw [if_neg hne]
  · intro hhex
    simp only [parsePriceId, hhex, Bool.false_eq_true, if_false]
  · intro hhex hlen
    obtain ⟨bs, hbs, hbslen, -, -⟩ := hexDecode_total _ hhex (by omega)
    have hbs32 : bs.length = 32 := by omega
    exact ⟨bs, by simp only [parsePriceId, hhex, hbs, hbs32, if_true], hbs32⟩

/-- Witness for C3 on a non-hex text and a too-short hex text. -/
theorem parsePriceId_errors_witness :
    parsePriceId "zz".toList = Except.error ParseError.InvalidHex
    ∧ parsePriceId "abcd".toList = Except.error ParseError.InvalidLength :=
  ⟨(parsePriceId_errors "zz".toList).2.1 (by decide),
   (parsePriceId_errors "abcd".toList).1 (by decide) (by decide)⟩

/-- Decimal digit characters are decimal digits. -/
theorem isDecDigit_decChar (d : Nat) (h : d < 10) : isDecDigit (decChar d) = true := by
  interval_cases d <;> decide

/-- Code point of a decimal digit character. -/
theorem decChar_toNat (d : Nat) (h : d < 10) : (decChar d).toNat = 48 + d := by
  interval_cases d <;> decide

/-- Folding the digit characters of a little-endian digit list recovers
the number. -/
theorem foldr_decChar (l : List Nat) (hl : ∀ d ∈ l, d < 10) :
    (l.map decChar).foldr (fun c a => 10 * a + (c.toNat - 48)) 0 = Nat.ofDigits 10 l := by
  induction l with
  | nil => rfl
  | cons d t ih =>
    have hd := hl d (List.mem_cons_self d t)
    have ht := ih fun x hx => hl x (List.mem_cons_of_mem d hx)
    simp only [List.map_cons, List.foldr_cons, ht, Nat.ofDigits_cons,
      decChar_toNat d hd, Nat.cast_id]
    omega

/-- Reading back the decimal rendering of a `u64` recovers its value. -/
theorem decDigitsVal_natToDecimal (n : Nat) : decDigitsVal (natToDecimal n) = some n := by
  rcases Nat.eq_zero_or_pos n with h0 | hpos
  · subst h0; decide
  · have hne : n ≠ 0 := by omega
    have hdig : ∀ d ∈ Nat.digits 10 n, d < 10 := fun d hd =>
      Nat.digits_lt_base (by norm_num) hd
    have hnil : Nat.digits 10 n ≠ [] := Nat.digits_ne_nil_iff_ne_zero.mpr hne
    have hne' : ((Nat.digits 10 n).map decChar).reverse ≠ [] := by
      simp [hnil]
    have hall : (((Nat.digits 10 n).map decChar).reverse).all isDecDigit = true := by
      rw [List.all_eq_true]
      intro c hc
      rw [List.mem_reverse] at hc
      obtain ⟨d, hd, rfl⟩ := List.mem_map.mp hc
      exact isDecDigit_decChar d (hdig d hd)
    rw [natToDecimal, if_neg hne, decDigitsVal, if_pos ⟨hne', hall⟩]
    congr 1
    rw [List.foldl_reverse]
    exact (foldr_decChar _ hdig).trans (Nat.ofDigits_digits 10 n)

/-- The decimal rendering of a `u64` starts with a digit character. -/
theorem natToDecimal_head (n : Nat) :
    ∃ c t, natToDecimal n = c :: t ∧ isDecDigit c = true := by
  rcases Nat.eq_zero_or_pos n with h0 | hpos
  · subst h0; exact ⟨'0', [], rfl, by decide⟩
  · have hne : n ≠ 0 := by omega
    have hnil : Nat.digits 10 n ≠ [] := Nat.digits_ne_nil_iff_ne_zero.mpr hne
    rw [natToDecimal, if_neg hne, ← List.map_reverse]
    cases hrev : (Nat.digits 10 n).reverse with
    | nil => exact absurd (by simpa using congrArg List.reverse hrev) hnil
    | cons d t =>
      have hd : d ∈ Nat.digits 10 n := by
        rw [← List.mem_reverse, hrev]
        exact List.mem_cons_self d t
      exact ⟨decChar d, t.map decChar, rfl,
        isDecDigit_decChar d (Nat.digits_lt_base (by norm_num) hd)⟩

/-- `u64::from_str` inverts the decimal rendering for in-range values. -/
theorem parseU64_natToDecimal (n : Nat) (h : n < 2 ^ 64) :
    parseU64 (natToDecimal n) = some n := by
  rw [parseU64, decDigitsVal_natToDecimal]
  show (if n < 2 ^ 64 then some n else none) = some n
  rw [if_pos h]

/-- `i64::from_str` inverts the decimal rendering of a nonnegative value. -/
theorem parseI64_natToDecimal (n : Nat) (h : n < 2 ^ 63) :
    parseI64 (natToDecimal n) = some (n : Int) := by
  obtain ⟨c, t, hct, hc⟩ := natToDecimal_head n
  have hcm : c ≠ '-' := by
    intro he; rw [he] at hc; exact absurd hc (by decide)
  have hcp : c ≠ '+' := by
    intro he; rw [he] at hc; exact absurd hc (by decide)
  rw [hct, parseI64, if_neg hcm, if_neg hcp, ← hct, decDigitsVal_natToDecimal]
  show (if n < 2 ^ 63 then some ((n : Int)) else none) = some ((n : Int))
  rw [if_pos h]

/-- `i64::from_str` inverts the decimal rendering for in-range values. -/
theorem parseI64_intToDecimal (i : Int) (h1 : -(2 ^ 63) ≤ i) (h2 : i < 2 ^ 63) :
    parseI64 (intToDecimal i) = some i := by
  rcases lt_or_le i 0 with hneg | hpos
  · rw [intToDecimal, if_pos hneg, parseI64, if_pos rfl, decDigitsVal_natToDecimal]
    have hb : i.natAbs ≤ 2 ^ 63 := by omega
    show (if i.natAbs ≤ 2 ^ 63 then some (-(i.natAbs : Int)) else none) = some i
    rw [if_pos hb]
    congr 1
    omega
  · rw [intToDecimal, if_neg (by omega), parseI64_natToDecimal _ (by omega)]
    congr 1
    omega

/-- C4: serializing an `RpcPrice` and deserializing the result reproduces
the exact `price` and `conf` integers for every signed 64-bit price and
unsigned 64-bit confidence; `price` and `conf` are emitted as decimal
strings while `expo` and `publish_time` stay native integers. -/
theorem rpcPrice_serde_roundtrip (p : RpcPrice)
    (h1 : -(2 ^ 63) ≤ p.price) (h2 : p.price < 2 ^ 63) (h3 : p.conf < 2 ^ 64) :
    deserializeRpcPrice (serializeRpcPrice p) = some p
    ∧ (serializeRpcPrice p).price = intToDecimal p.price
    ∧ (serializeRpcPrice p).conf = natToDecimal p.conf
    ∧ (serializeRpcPrice p).expo = p.expo
    ∧ (serializeRpcPrice p).publish_time = p.publish_time := by
  refine ⟨?_, rfl, rfl, rfl, rfl⟩
  simp only [deserializeRpcPrice, serializeRpcPrice,
    parseI64_intToDecimal p.price h1 h2, parseU64_natToDecimal p.conf h3]
  rfl

/-- Witness for C4 at the maximum `i64` price and maximum `u64` confidence. -/
theorem rpcPrice_serde_roundtrip_witness :
    deserializeRpcPrice (serializeRpcPrice
      { price := 9223372036854775807, conf := 18446744073709551615,
        expo := -8, publish_time := 1700000000 }) =
    some { price := 9223372036854775807, conf := 18446744073709551615,
           expo := -8, publish_time := 1700000000 } :=
  (rpcPrice_serde_roundtrip _ (by decide) (by decide) (by decide)).1

/-- Shape of a successful envelope-to-domain conversion. -/
theorem tryFrom_some (pu : PriceUpdate) (l : List ParsedPriceUpdate)
    (hp : pu.parsed = some l) :
    PriceFeedsWithUpdateData.tryFrom pu = Except.ok
      { price_feeds := l.map fun p =>
          { price_feed := PriceFeed.new p.id.toPriceIdentifier
              { price := p.price.price, conf := p.price.conf,
                expo := p.price.expo, publish_time := p.price.publish_time }
              { price := p.ema_price.price, conf := p.ema_price.conf,
                expo := p.ema_price.expo, publish_time := p.ema_price.publish_time }
            slot := p.metadata.slot
            received_at := p.metadata.proof_available_time
            update_data := none
            prev_publish_time := p.metadata.prev_publish_time }
        update_data := pu.binary.data.map fun s => (hexDecode s).getD [] } := by
  simp only [PriceFeedsWithUpdateData.tryFrom, hp]

/-- C1 (code bug): the converter hex-decodes every binary entry even when the
envelope's encoding tag is `Base64`: on a `Base64`-tagged envelope whose
single entry is `"AAAA"`, it produces the hex bytes `[0xAA, 0xAA]` — bytes
that do not re-encode to the entry under the envelope's own tag, while they
do under `Hex`. -/
theorem tryFrom_ignores_encoding_tag :
    PriceFeedsWithUpdateData.tryFrom
      { binary := { encoding := EncodingType.Base64, data := ["AAAA".toList] }
        parsed := some [] }
      = Except.ok { price_feeds := [], update_data := [[170, 170]] }
    ∧ EncodingType.encode_str EncodingType.Base64 [170, 170] ≠ "AAAA".toList
    ∧ EncodingType.encode_str EncodingType.Hex [170, 170] = "aaaa".toList :=
  ⟨rfl, by decide, rfl⟩

/-- C5: converting an envelope whose parsed list is absent always fails with
the missing-parsed-data error and never returns a result. -/
theorem tryFrom_missing_parsed (pu : PriceUpdate) (h : pu.parsed = none) :
    PriceFeedsWithUpdateData.tryFrom pu
      = Except.error "No parsed price updates available"
    ∧ ∀ r, PriceFeedsWithUpdateData.tryFrom pu ≠ Except.ok r := by
  have he : PriceFeedsWithUpdateData.tryFrom pu
      = Except.error "No parsed price updates available" := by
    simp only [PriceFeedsWithUpdateData.tryFrom, h]
  exact ⟨he, fun r hr => by rw [he] at hr; exact Except.noConfusion hr⟩

/-- Witness for C5 on a parsed-less envelope. -/
theorem tryFrom_missing_parsed_witness :
    PriceFeedsWithUpdateData.tryFrom
      { binary := { encoding := EncodingType.Hex, data := [] }, parsed := none }
      = Except.error "No parsed price updates available" :=
  (tryFrom_missing_parsed _ rfl).1

/-- C6: for an envelope with a non-empty parsed list, conversion succeeds and
every reconstructed update has its raw `update_data` set to `none`. -/
theorem tryFrom_price_feeds_no_raw (pu : PriceUpdate) (l : List ParsedPriceUpdate)
    (hp : pu.parsed = some l) (hne : l ≠ []) :
    ∃ r, PriceFeedsWithUpdateData.tryFrom pu = Except.ok r
      ∧ r.price_feeds ≠ [] ∧ ∀ u ∈ r.price_feeds, u.update_data = none := by
  refine ⟨_, tryFrom_some pu l hp, ?_, ?_⟩
  · intro hmap
    exact hne (by simpa using hmap)
  · intro u hu
    obtain ⟨x, hx, rfl⟩ := List.mem_map.mp hu
    rfl

/-- Witness for C6 on a one-entry parsed list. -/
theorem tryFrom_price_feeds_no_raw_witness :
    ∃ r, PriceFeedsWithUpdateData.tryFrom
        { binary := { encoding := EncodingType.Hex, data := [] }
          parsed := some
            [{ id := ⟨List.replicate 32 0⟩
               price := { price := 1, conf := 2, expo := -3, publish_time := 4 }
               ema_price := { price := 5, conf := 6, expo := -7, publish_time := 8 }
               metadata := { slot := none, proof_available_time := none,
                             prev_publish_time := none } }] }
        = Except.ok r
      ∧ r.price_feeds ≠ [] ∧ ∀ u ∈ r.price_feeds, u.update_data = none :=
  tryFrom_price_feeds_no_raw _ _ rfl (List.cons_ne_nil _ _)

/-- C7: the client view's metadata is absent exactly when `verbose` is
false; when `verbose` is true it carries the fixed Pythnet chain id together
with the update's received-at time, slot, and previous publish time. -/
theorem from_price_feed_update_metadata (u : PriceFeedUpdate) (b : Bool) :
    (RpcPriceFeed.from_price_feed_update u false b).metadata = none
    ∧ (RpcPriceFeed.from_price_feed_update u true b).metadata =
        some { slot := u.slot
               emitter_chain := pythnetChainId
               price_service_receive_time := u.received_at
               prev_publish_time := u.prev_publish_time } :=
  ⟨rfl, rfl⟩

/-- C8: the client view's `vaa` field equals the base64 encoding of the raw
update bytes when `binary` is true (so it is present exactly when the update
carries raw bytes), and is always absent when `binary` is false. -/
theorem from_price_feed_update_vaa (u : PriceFeedUpdate) (v : Bool) :
    (RpcPriceFeed.from_price_feed_update u v true).vaa
      = u.update_data.map base64Encode
    ∧ ((RpcPriceFeed.from_price_feed_update u v true).vaa.isSome = true
        ↔ u.update_data.isSome = true)
    ∧ (RpcPriceFeed.from_price_feed_update u v false).vaa = none := by
  refine ⟨rfl, ?_, rfl⟩
  show (u.update_data.map base64Encode).isSome = true ↔ u.update_data.isSome = true
  cases u.update_data <;> simp

/-- C9: a binary entry that fails to decode is replaced by an empty byte
sequence: the conversion still succeeds (given a parsed list) and the failed
entry's position holds the empty vector. -/
theorem tryFrom_decode_failure_empty (pu : PriceUpdate) (l : List ParsedPriceUpdate)
    (hp : pu.parsed = some l) (i : Nat) (s : List Char)
    (hs : pu.binary.data[i]? = some s) (hfail : hexDecode s = none) :
    ∃ r, PriceFeedsWithUpdateData.tryFrom pu = Except.ok r
      ∧ r.update_data[i]? = some [] := by
  refine ⟨_, tryFrom_some pu l hp, ?_⟩
  show (pu.binary.data.map fun s => (hexDecode s).getD [])[i]? = some []
  rw [List.getElem?_map, hs]
  simp [hfail]

/-- Witness for C9 on an envelope whose single binary entry is not hex. -/
theorem tryFrom_decode_failure_empty_witness :
    ∃ r, PriceFeedsWithUpdateData.tryFrom
        { binary := { encoding := EncodingType.Hex, data := ["zz".toList] }
          parsed := some [] }
        = Except.ok r
      ∧ r.update_data[0]? = some [] :=
  tryFrom_decode_failure_empty _ [] rfl 0 "zz".toList rfl (by decide)

/-- C10: converting an envelope whose parsed list is the single parsed view
of a domain update reconstructs exactly that update with only the raw
update bytes dropped. -/
theorem parsed_view_roundtrip (u : PriceFeedUpdate) (enc : EncodingType)
    (data : List (List Char)) :
    ∃ r, PriceFeedsWithUpdateData.tryFrom
        { binary := { encoding := enc, data := data }
          parsed := some [ParsedPriceUpdate.ofPriceFeedUpdate u] } = Except.ok r
      ∧ r.price_feeds = [{ u with update_data := none }] :=
  ⟨_, tryFrom_some _ _ rfl, rfl⟩

/-- Witness for C7 at a concrete update. -/
theorem from_price_feed_update_metadata_witness :
    (RpcPriceFeed.from_price_feed_update
        { price_feed := ⟨⟨List.replicate 32 0⟩,
            { price := 1, conf := 2, expo := -3, publish_time := 4 },
            { price := 5, conf := 6, expo := -7, publish_time := 8 }⟩
          slot := some 9, received_at := some 10, update_data := some [1, 2]
          prev_publish_time := some 11 } false true).metadata = none :=
  (from_price_feed_update_metadata _ true).1

/-- Witness for C8 at a concrete update without raw bytes. -/
theorem from_price_feed_update_vaa_witness :
    (RpcPriceFeed.from_price_feed_update
        { price_feed := ⟨⟨List.replicate 32 0⟩,
            { price := 1, conf := 2, expo := -3, publish_time := 4 },
            { price := 5, conf := 6, expo := -7, publish_time := 8 }⟩
          slot := none, received_at := none, update_data := none
          prev_publish_time := none } true false).vaa = none :=
  (from_price_feed_update_vaa _ true).2.2

/-- Witness for C10 at a concrete update. -/
theorem parsed_view_roundtrip_witness :
    ∃ r, PriceFeedsWithUpdateData.tryFrom
        { binary := { encoding := EncodingType.Hex, data := [] }
          parsed := some [ParsedPriceUpdate.ofPriceFeedUpdate
            { price_feed := ⟨⟨List.replicate 32 0⟩,
                { price := 1, conf := 2, expo := -3, publish_time := 4 },
                { price := 5, conf := 6, expo := -7, publish_time := 8 }⟩
              slot := some 9, received_at := some 10, update_data := some [1, 2]
              prev_publish_time := some 11 }] } = Except.ok r
      ∧ r.price_feeds =
          [{ price_feed := ⟨⟨List.replicate 32 0⟩,
               { price := 1, conf := 2, expo := -3, publish_time := 4 },
               { price := 5, conf := 6, expo := -7, publish_time := 8 }⟩
             slot := some 9, received_at := some 10, update_data := none
             prev_publish_time := some 11 }] :=
  parsed_view_roundtrip _ EncodingType.Hex []

end HermesTypes
